import Mathlib

/-!
Shallow embedding of the two scheduler variants of this repository:
`scheduler.py` (polling mode) and `scheduler_watch.py` (streaming mode).

The cluster state that the Kubernetes API returns to the Python code
(node list, pod snapshot, HTTP results of bind calls, watch events) is
passed to the embedded functions as explicit arguments; Python exceptions
are modelled with `Except` over the `PyExc` type, and the `try/except`
blocks of the source become explicit matches on those `Except` values.
-/

namespace Sched

/-- One entry of `node.status.conditions`, with the two fields the code
reads: `condition.type` and `condition.status`. -/
structure NodeCondition where
  type : String
  status : String
deriving DecidableEq

/-- The `node.status` object; its `conditions` attribute may be `None` in
the Python client, hence the `Option`. -/
structure NodeStatus where
  conditions : Option (List NodeCondition)
deriving DecidableEq

/-- A cluster node: `metadata.name` plus the optional `status` object. -/
structure Node where
  name : String
  status : Option NodeStatus
deriving DecidableEq

/-- A pod, restricted to the fields the schedulers read:
`metadata.namespace`, `metadata.name`, `spec.node_name` (`none` when the
pod is unassigned), `status.phase`, and `spec.scheduler_name`. -/
structure Pod where
  ns : String
  name : String
  nodeName : Option String
  phase : String
  schedulerName : String
deriving DecidableEq

/-- The Python exceptions the handlers in both files distinguish:
`ApiException` (carrying the HTTP status and reason), `ValueError`,
`RuntimeError`, and any other `Exception`. -/
inductive PyExc where
  | apiException (status : Nat) (reason : String)
  | valueError (msg : String)
  | runtimeError (msg : String)
  | otherExc (msg : String)
deriving DecidableEq

/-- Python truthiness test `not s` on an optional string field: true when
the field is `None` or the empty string. -/
def optStrFalsy : Option String → Bool
  | none => true
  | some s => s == ""

/-- The readiness filter inside `choose_node` (both files): a node is kept
when `n.status` and `n.status.conditions` are truthy and some condition
has `type == "Ready"` and `status == "True"`. -/
def nodeIsReady (n : Node) : Bool :=
  match n.status with
  | none => false
  | some st =>
    match st.conditions with
    | none => false
    | some conds => conds.any fun c => c.type == "Ready" && c.status == "True"

/-- Embedding of `sum(1 for p in pods if p.spec.node_name == n.metadata.name)`
from `choose_node` (both files): the load of one node under one pod
snapshot. Comparing `p.spec.node_name` (possibly `None`) with a node name
string is `p.nodeName == some nodeName`. -/
def loadCount (pods : List Pod) (nodeName : String) : Nat :=
  ((pods.filter fun p => p.nodeName == some nodeName).map fun _ => 1).sum

/-- The selection loop of `choose_node`: it carries the running minimum
`min_cnt` (`none` models the initial `math.inf`) and the current `pick`,
updating both exactly when a strictly smaller count is seen. -/
def selectLoop (pods : List Pod) : List Node → Option Nat → String → String
  | [], _, pick => pick
  | n :: rest, minCnt, pick =>
    let cnt := loadCount pods n.name
    match minCnt with
    | none => selectLoop pods rest (some cnt) n.name
    | some m =>
      if cnt < m then selectLoop pods rest (some cnt) n.name
      else selectLoop pods rest (some m) pick

/-- `choose_node` from both files, with the node list and pod snapshot the
two API list calls return passed in as arguments. An empty node list
raises `RuntimeError("No nodes available")`; otherwise the ready nodes are
filtered out, with a fallback to the full list when none is ready, and the
selection loop runs with initial pick `ready_nodes[0].metadata.name` and
initial minimum `math.inf`. -/
def choose_node (nodes : List Node) (pods : List Pod) : Except PyExc String :=
  match nodes with
  | [] => Except.error (PyExc.runtimeError "No nodes available")
  | n0 :: ns =>
    match (n0 :: ns).filter nodeIsReady with
    | [] => Except.ok (selectLoop pods (n0 :: ns) none n0.name)
    | r0 :: rs => Except.ok (selectLoop pods (r0 :: rs) none r0.name)

/-- Specification helper: the value held by `min_cnt` after folding the
load counts of a candidate list into a starting minimum. -/
def runMin (pods : List Pod) (l : List Node) (m : Nat) : Nat :=
  l.foldl (fun acc n => min acc (loadCount pods n.name)) m

/-- The pod admission filter, embedded from the pending-pod list
comprehension of `scheduler.py` (lines 104-109) and the eligibility `if`
of `scheduler_watch.py` (lines 104-106): assigned-node field falsy, phase
exactly `"Pending"`, and scheduler name exactly equal. A pure function:
it has no side effect. -/
def isEligible (p : Pod) (schedulerName : String) : Bool :=
  optStrFalsy p.nodeName && p.phase == "Pending" && p.schedulerName == schedulerName

/-- Result of the raw transport call `api.api_client.call_api` in
`scheduler.py`: either the call returned (the client accepted the HTTP
response, handing back its status code), or the client raised an
exception (`ApiException` for API-level rejections, other exceptions for
network or timeout failures). -/
inductive CallApiResult where
  | response (status : Nat)
  | raised (e : PyExc)
deriving DecidableEq

/-- `bind_pod` of `scheduler.py`: it POSTs to the binding subresource; a
raised exception propagates unchanged, and a returned response whose
status is not in `[200, 201]` raises a generic `Exception`. -/
def bind_pod_poll (call : CallApiResult) : Except PyExc Unit :=
  match call with
  | CallApiResult.raised e => Except.error e
  | CallApiResult.response s =>
    if s ∈ [200, 201] then Except.ok ()
    else Except.error (PyExc.otherExc ("Binding failed with status " ++ toString s))

/-- Result of the `api.create_namespaced_binding` call in
`scheduler_watch.py`: the call completed, or the client raised. -/
inductive BindingCallResult where
  | completed
  | raised (e : PyExc)
deriving DecidableEq

/-- `bind_pod` of `scheduler_watch.py`: the call is wrapped in
`try ... except ValueError: pass`, so a raised `ValueError` is swallowed
and the bind is treated as a success; every other exception propagates. -/
def bind_pod_watch (call : BindingCallResult) : Except PyExc Unit :=
  match call with
  | BindingCallResult.completed => Except.ok ()
  | BindingCallResult.raised (PyExc.valueError _) => Except.ok ()
  | BindingCallResult.raised e => Except.error e

/-- What the per-pod `try/except` in `main` logs for one pod. -/
inductive PodLogOutcome where
  | boundOk (node : String)
  | conflictLogged
  | apiErrorLogged (status : Nat) (reason : String)
  | errorLogged (msg : String)
deriving DecidableEq

/-- The per-pod exception handlers of `main` (identical in both files):
`except ApiException as e` with an `if e.status == 409` conflict check,
followed by a catch-all `except Exception`. -/
def logOutcome (r : Except PyExc String) : PodLogOutcome :=
  match r with
  | Except.ok node => PodLogOutcome.boundOk node
  | Except.error (PyExc.apiException s reason) =>
    if s = 409 then PodLogOutcome.conflictLogged
    else PodLogOutcome.apiErrorLogged s reason
  | Except.error (PyExc.valueError m) => PodLogOutcome.errorLogged m
  | Except.error (PyExc.runtimeError m) => PodLogOutcome.errorLogged m
  | Except.error (PyExc.otherExc m) => PodLogOutcome.errorLogged m

/-- The cluster responses observed while the polling `main` processes one
pod: the node list and fresh pod snapshot that `choose_node` fetches, and
the transport result of the bind call for this pod. -/
structure PollPodEnv where
  nodes : List Node
  podsSnapshot : List Pod
  bindCall : CallApiResult
deriving DecidableEq

/-- The body of the per-pod `try` block in the polling `main`: pick a node
(a `RuntimeError` from `choose_node` propagates to the handlers), then
bind; on success the loop reports the chosen node. -/
def tryPodPoll (env : PollPodEnv) : Except PyExc String :=
  match choose_node env.nodes env.podsSnapshot with
  | Except.error e => Except.error e
  | Except.ok node =>
    match bind_pod_poll env.bindCall with
    | Except.error e => Except.error e
    | Except.ok _ => Except.ok node

/-- One pod's processing in the polling `main`: `try` body plus handlers. -/
def processPodPoll (env : PollPodEnv) : PodLogOutcome :=
  logOutcome (tryPodPoll env)

/-- The `for pod in pending_pods` loop of the polling `main`: each
iteration runs the per-pod `try/except` to completion, and the loop then
proceeds to the next pod. -/
def processBatchPoll : List PollPodEnv → List PodLogOutcome
  | [] => []
  | env :: rest => processPodPoll env :: processBatchPoll rest

/-- Outcome of one whole polling cycle. -/
inductive CycleOutcome where
  | completed (outcomes : List PodLogOutcome)
  | cycleErrorLogged (e : PyExc)
deriving DecidableEq

/-- One iteration of the outer `while True` loop of the polling `main`:
the whole cycle body sits inside a `try`, and `except Exception` logs the
error and falls through to the sleep. The argument is the result of
listing the pods and assembling the per-pod environments. -/
def runCyclePoll (fetch : Except PyExc (List PollPodEnv)) : CycleOutcome :=
  match fetch with
  | Except.error e => CycleOutcome.cycleErrorLogged e
  | Except.ok envs => CycleOutcome.completed (processBatchPoll envs)

/-- A watch event as read by `scheduler_watch.py`: `evt['type']` and
`evt['object']`; `none` models a malformed payload (`None` object or an
object without a `spec` attribute), which the code skips with `continue`. -/
structure WatchEvent where
  type : String
  object : Option Pod
deriving DecidableEq

/-- The event dispatch of the streaming `main` (lines 92-106): skip
malformed events, act only on `ADDED` or `MODIFIED` events, then re-check
eligibility on the event's pod; the result is the pod to be processed, or
`none` when the event is ignored. -/
def eventAction (evt : WatchEvent) (schedulerName : String) : Option Pod :=
  match evt.object with
  | none => none
  | some pod =>
    if !(evt.type == "ADDED" || evt.type == "MODIFIED") then none
    else if isEligible pod schedulerName then some pod
    else none

/-- The cluster responses observed while the streaming `main` processes
one pod. -/
structure WatchPodEnv where
  nodes : List Node
  podsSnapshot : List Pod
  bindCall : BindingCallResult
deriving DecidableEq

/-- The body of the per-pod `try` block in the streaming `main`. -/
def tryPodWatch (env : WatchPodEnv) : Except PyExc String :=
  match choose_node env.nodes env.podsSnapshot with
  | Except.error e => Except.error e
  | Except.ok node =>
    match bind_pod_watch env.bindCall with
    | Except.error e => Except.error e
    | Except.ok _ => Except.ok node

/-- One pod's processing in the streaming `main`: `try` body plus the same
handlers as the polling variant. -/
def processPodWatch (env : WatchPodEnv) : PodLogOutcome :=
  logOutcome (tryPodWatch env)

/-- A run of consecutive stream events, each dispatched and (when
eligible) processed independently: `none` for an ignored event, `some`
outcome for a processed pod. -/
def processStream (schedulerName : String) :
    List (WatchEvent × WatchPodEnv) → List (Option PodLogOutcome)
  | [] => []
  | (evt, env) :: rest =>
    ((eventAction evt schedulerName).map fun _ => processPodWatch env)
      :: processStream schedulerName rest

/-- What the scheduling loop does after one iteration: continue after a
delay (in seconds), or stop. The `terminate` alternative is in the
codomain so that liveness, the fact that the code never stops, is
expressible; no branch of either loop produces it. -/
inductive LoopAction where
  | continueAfter (delaySeconds : Nat)
  | terminate
deriving DecidableEq

/-- One iteration of the `while True` loop of the streaming `main`
(lines 86-127): the stream body either ends normally (the `for` over the
watch generator is exhausted, and the loop restarts at once) or raises
(the `except Exception` handler logs and sleeps 5 seconds before the loop
restarts). Neither path leaves the loop. -/
def watchLoopIterate (streamResult : Except PyExc Unit) : LoopAction :=
  match streamResult with
  | Except.ok _ => LoopAction.continueAfter 0
  | Except.error _ => LoopAction.continueAfter 5

/-- One iteration of the `while True` loop of the polling `main`
(lines 98-131): the cycle body is wrapped in `try/except Exception`, and
both paths fall through to `time.sleep(args.interval)`. Neither path
leaves the loop. -/
def pollLoopIterate (cycleResult : Except PyExc Unit) (interval : Nat) : LoopAction :=
  match cycleResult with
  | Except.ok _ => LoopAction.continueAfter interval
  | Except.error _ => LoopAction.continueAfter interval

/-- A `Ready`-with-status-`True` node condition, for concrete witnesses. -/
def condReady : NodeCondition := ⟨"Ready", "True"⟩

/-- Concrete ready node named `a`. -/
def nodeA : Node := ⟨"a", some ⟨some [condReady]⟩⟩

/-- Concrete ready node named `b`. -/
def nodeB : Node := ⟨"b", some ⟨some [condReady]⟩⟩

/-- Concrete pod assigned to node `a`. -/
def podOnA : Pod := ⟨"default", "p1", some "a", "Running", "default-scheduler"⟩

/-- Concrete pod assigned to node `b`. -/
def podOnB : Pod := ⟨"default", "p2", some "b", "Running", "default-scheduler"⟩

/-- Concrete per-pod environment whose bind call hits an HTTP 409. -/
def envConflict : PollPodEnv :=
  ⟨[nodeA], [], CallApiResult.raised (PyExc.apiException 409 "Conflict")⟩

/-- Mapping a list to the constant 1 and summing counts its length. -/
theorem sum_map_one {α : Type} (l : List α) :
    (l.map fun _ => (1 : Nat)).sum = l.length := by
  induction l with
  | nil => rfl
  | cons a t ih =>
    simp [List.map_cons, List.sum_cons, ih, List.length_cons]
    exact Nat.add_comm 1 t.length

/-- The load of a node is the length of the filtered pod list. -/
theorem loadCount_eq_length (pods : List Pod) (nm : String) :
    loadCount pods nm = ((pods.filter fun p => p.nodeName == some nm)).length := by
  unfold loadCount
  exact sum_map_one _

/-- The running minimum never exceeds its starting value. -/
theorem runMin_le (pods : List Pod) (l : List Node) :
    ∀ m : Nat, runMin pods l m ≤ m := by
  induction l with
  | nil => intro m; exact Nat.le_refl m
  | cons n t ih =>
    intro m
    have h1 : runMin pods (n :: t) m = runMin pods t (min m (loadCount pods n.name)) := rfl
    rw [h1]
    exact Nat.le_trans (ih _) (Nat.min_le_left _ _)

/-- The running minimum is a lower bound on the load of every listed node. -/
theorem runMin_le_mem (pods : List Pod) (l : List Node) :
    ∀ (m : Nat) (x : Node), x ∈ l → runMin pods l m ≤ loadCount pods x.name := by
  induction l with
  | nil => intro m x hx; cases hx
  | cons n t ih =>
    intro m x hx
    have h1 : runMin pods (n :: t) m = runMin pods t (min m (loadCount pods n.name)) := rfl
    rw [h1]
    rcases List.mem_cons.mp hx with h | h
    · subst h
      exact Nat.le_trans (runMin_le pods t _) (Nat.min_le_right _ _)
    · exact ih _ _ h

/-- Full characterization of the selection loop started with a finite
minimum: when some listed node improves on the start, the loop returns the
first listed node whose load equals the final running minimum; otherwise
it returns the starting pick unchanged. -/
theorem selectLoop_some_spec (pods : List Pod) (l : List Node) :
    ∀ (m : Nat) (pick : String),
      (runMin pods l m < m →
        ∃ n, l.find? (fun x => loadCount pods x.name == runMin pods l m) = some n ∧
          selectLoop pods l (some m) pick = n.name) ∧
      (¬ runMin pods l m < m → selectLoop pods l (some m) pick = pick) := by
  induction l with
  | nil =>
    intro m pick
    exact ⟨fun h => absurd h (Nat.lt_irrefl m), fun _ => rfl⟩
  | cons nd t ih =>
    intro m pick
    have hrm : runMin pods (nd :: t) m = runMin pods t (min m (loadCount pods nd.name)) := rfl
    by_cases hc : loadCount pods nd.name < m
    · have hmin : min m (loadCount pods nd.name) = loadCount pods nd.name :=
        Nat.min_eq_right (Nat.le_of_lt hc)
      have hsel : selectLoop pods (nd :: t) (some m) pick =
          selectLoop pods t (some (loadCount pods nd.name)) nd.name := by
        simp [selectLoop, hc]
      by_cases ht : runMin pods t (loadCount pods nd.name) < loadCount pods nd.name
      · obtain ⟨x, hf, hx⟩ := (ih (loadCount pods nd.name) nd.name).1 ht
        have hlt : runMin pods (nd :: t) m < m := by
          rw [hrm, hmin]; exact Nat.lt_trans ht hc
        constructor
        · intro _
          refine ⟨x, ?_, by rw [hsel]; exact hx⟩
          rw [hrm, hmin]
          have hpnd : (loadCount pods nd.name ==
              runMin pods t (loadCount pods nd.name)) = false := by
            simp only [beq_eq_false_iff_ne]
            omega
          rw [List.find?_cons]
          simp only [hpnd]
          exact hf
        · intro hcon; exact absurd hlt hcon
      · have heq : runMin pods t (loadCount pods nd.name) = loadCount pods nd.name :=
          Nat.le_antisymm (runMin_le pods t _) (Nat.not_lt.mp ht)
        have hsel2 : selectLoop pods t (some (loadCount pods nd.name)) nd.name = nd.name :=
          (ih (loadCount pods nd.name) nd.name).2 ht
        constructor
        · intro _
          refine ⟨nd, ?_, by rw [hsel, hsel2]⟩
          rw [hrm, hmin, heq]
          exact List.find?_cons_of_pos _ (by simp)
        · intro hcon
          rw [hrm, hmin, heq] at hcon
          exact absurd hc hcon
    · have hmin : min m (loadCount pods nd.name) = m :=
        Nat.min_eq_left (Nat.not_lt.mp hc)
      have hsel : selectLoop pods (nd :: t) (some m) pick =
          selectLoop pods t (some m) pick := by
        simp [selectLoop, hc]
      constructor
      · intro h
        rw [hrm, hmin] at h
        obtain ⟨x, hf, hx⟩ := (ih m pick).1 h
        refine ⟨x, ?_, by rw [hsel]; exact hx⟩
        rw [hrm, hmin]
        have h2 : m ≤ loadCount pods nd.name := Nat.not_lt.mp hc
        have hpnd : (loadCount pods nd.name == runMin pods t m) = false := by
          simp only [beq_eq_false_iff_ne]
          omega
        rw [List.find?_cons]
        simp only [hpnd]
        exact hf
      · intro h
        rw [hrm, hmin] at h
        rw [hsel]
        exact (ih m pick).2 h

/-- The selection loop started as `choose_node` starts it (infinite
minimum, pick the first candidate) returns the name of the first
candidate whose load equals the overall minimum. -/
theorem selectLoop_none_spec (pods : List Pod) (c0 : Node) (cs : List Node) :
    ∃ n, (c0 :: cs).find?
        (fun x => loadCount pods x.name == runMin pods cs (loadCount pods c0.name)) = some n ∧
      selectLoop pods (c0 :: cs) none c0.name = n.name := by
  have h0 : selectLoop pods (c0 :: cs) none c0.name =
      selectLoop pods cs (some (loadCount pods c0.name)) c0.name := rfl
  by_cases ht : runMin pods cs (loadCount pods c0.name) < loadCount pods c0.name
  · obtain ⟨x, hf, hx⟩ :=
      (selectLoop_some_spec pods cs (loadCount pods c0.name) c0.name).1 ht
    refine ⟨x, ?_, by rw [h0]; exact hx⟩
    have hpc0 : (loadCount pods c0.name ==
        runMin pods cs (loadCount pods c0.name)) = false := by
      simp only [beq_eq_false_iff_ne]
      omega
    rw [List.find?_cons]
    simp only [hpc0]
    exact hf
  · have heq : runMin pods cs (loadCount pods c0.name) = loadCount pods c0.name :=
      Nat.le_antisymm (runMin_le pods cs _) (Nat.not_lt.mp ht)
    refine ⟨c0, ?_, ?_⟩
    · rw [heq]
      exact List.find?_cons_of_pos _ (by simp)
    · rw [h0]
      exact (selectLoop_some_spec pods cs (loadCount pods c0.name) c0.name).2 ht

/-- `choose_node` on a non-empty node list: the candidate set is the ready
nodes, or all nodes when none is ready, and the returned name is that of
the first candidate whose load equals the candidate-set minimum. -/
theorem choose_node_cases (n0 : Node) (ns : List Node) (pods : List Pod) :
    ∃ c0 cs n,
      (if ((n0 :: ns).filter nodeIsReady).isEmpty then n0 :: ns
        else (n0 :: ns).filter nodeIsReady) = c0 :: cs ∧
      (c0 :: cs).find?
        (fun x => loadCount pods x.name == runMin pods cs (loadCount pods c0.name)) = some n ∧
      choose_node (n0 :: ns) pods = Except.ok n.name := by
  cases hf : (n0 :: ns).filter nodeIsReady with
  | nil =>
    obtain ⟨n, hfind, hsel⟩ := selectLoop_none_spec pods n0 ns
    refine ⟨n0, ns, n, rfl, hfind, ?_⟩
    have hcn : choose_node (n0 :: ns) pods =
        Except.ok (selectLoop pods (n0 :: ns) none n0.name) := by
      simp only [choose_node]
      rw [hf]
    rw [hcn, hsel]
  | cons r0 rs =>
    obtain ⟨n, hfind, hsel⟩ := selectLoop_none_spec pods r0 rs
    refine ⟨r0, rs, n, rfl, hfind, ?_⟩
    have hcn : choose_node (n0 :: ns) pods =
        Except.ok (selectLoop pods (r0 :: rs) none r0.name) := by
      simp only [choose_node]
      rw [hf]
    rw [hcn, hsel]

/-- Claim C1: for every non-empty node list, `choose_node` filters to the
Ready nodes, falls back to the full list when no node is Ready, and among
the resulting candidates returns the name of the first candidate (in
input-list order, which `List.filter` preserves) whose load count is the
minimum over the candidate set; as a Lean function it is deterministic. -/
theorem choose_node_least_loaded (nodes : List Node) (pods : List Pod)
    (hne : nodes ≠ []) :
    ∃ c0 cs n,
      (if (nodes.filter nodeIsReady).isEmpty then nodes
        else nodes.filter nodeIsReady) = c0 :: cs ∧
      (c0 :: cs).find?
        (fun x => loadCount pods x.name == runMin pods cs (loadCount pods c0.name)) = some n ∧
      loadCount pods n.name = runMin pods cs (loadCount pods c0.name) ∧
      (∀ x ∈ c0 :: cs, loadCount pods n.name ≤ loadCount pods x.name) ∧
      choose_node nodes pods = Except.ok n.name := by
  cases nodes with
  | nil => exact absurd rfl hne
  | cons n0 ns =>
    obtain ⟨c0, cs, n, hcand, hfind, hres⟩ := choose_node_cases n0 ns pods
    have hload : loadCount pods n.name = runMin pods cs (loadCount pods c0.name) := by
      have hp := List.find?_some hfind
      exact beq_iff_eq.mp hp
    refine ⟨c0, cs, n, hcand, hfind, hload, ?_, hres⟩
    intro x hx
    rw [hload]
    rcases List.mem_cons.mp hx with h | h
    · subst h
      exact runMin_le pods cs _
    · exact runMin_le_mem pods cs _ _ h

/-- Witness for C1 at a concrete input: two ready nodes, one pod already
assigned to node `a`, so node `b` is the unique least-loaded candidate. -/
theorem choose_node_least_loaded_witness :
    ([nodeA, nodeB] : List Node) ≠ [] ∧
    (∃ n : Node, choose_node [nodeA, nodeB] [podOnA] = Except.ok n.name ∧
      loadCount [podOnA] n.name = 0) := by
  refine ⟨by decide, ?_⟩
  obtain ⟨c0, cs, n, hcand, hfind, hload, hmin, hres⟩ :=
    choose_node_least_loaded [nodeA, nodeB] [podOnA] (by decide)
  refine ⟨n, hres, ?_⟩
  have hcand' : c0 :: cs = [nodeA, nodeB] := by
    rw [← hcand]; decide
  cases hcand'
  rw [hload]
  decide

/-- Claim C10: on a non-empty node list `choose_node` returns the name of
a member of that list, and when at least one listed node is Ready the
returned name is that of a Ready member. -/
theorem choose_node_returns_member (nodes : List Node) (pods : List Pod)
    (hne : nodes ≠ []) :
    ∃ nm, choose_node nodes pods = Except.ok nm ∧
      (∃ n, n ∈ nodes ∧ n.name = nm) ∧
      ((∃ n, n ∈ nodes ∧ nodeIsReady n = true) →
        ∃ n, n ∈ nodes ∧ nodeIsReady n = true ∧ n.name = nm) := by
  cases nodes with
  | nil => exact absurd rfl hne
  | cons n0 ns =>
    obtain ⟨c0, cs, n, hcand, hfind, hres⟩ := choose_node_cases n0 ns pods
    have hmemCand : n ∈ c0 :: cs := List.mem_of_find?_eq_some hfind
    by_cases hready : ((n0 :: ns).filter nodeIsReady).isEmpty
    · have hfil : (n0 :: ns).filter nodeIsReady = [] := List.isEmpty_iff.mp hready
      have hcand' : n0 :: ns = c0 :: cs := by
        rw [← hcand, if_pos hready]
      have hmem : n ∈ n0 :: ns := by rw [hcand']; exact hmemCand
      refine ⟨n.name, hres, ⟨n, hmem, rfl⟩, ?_⟩
      rintro ⟨r, hr, hrReady⟩
      exfalso
      have hrmem : r ∈ (n0 :: ns).filter nodeIsReady :=
        List.mem_filter.mpr ⟨hr, hrReady⟩
      rw [hfil] at hrmem
      exact absurd hrmem (List.not_mem_nil r)
    · have hcand' : (n0 :: ns).filter nodeIsReady = c0 :: cs := by
        rw [← hcand, if_neg hready]
      have hmemFilter : n ∈ (n0 :: ns).filter nodeIsReady := by
        rw [hcand']; exact hmemCand
      obtain ⟨hmem, hready_n⟩ := List.mem_filter.mp hmemFilter
      exact ⟨n.name, hres, ⟨n, hmem, rfl⟩, fun _ => ⟨n, hmem, hready_n, rfl⟩⟩

/-- Witness for C10 at a concrete input: both nodes Ready, so the pick is
the name of a Ready member of the input list. -/
theorem choose_node_returns_member_witness :
    ([nodeA, nodeB] : List Node) ≠ [] ∧
    (∃ nm, choose_node [nodeA, nodeB] [podOnA] = Except.ok nm ∧
      (∃ n, n ∈ ([nodeA, nodeB] : List Node) ∧ n.name = nm) ∧
      ((∃ n, n ∈ ([nodeA, nodeB] : List Node) ∧ nodeIsReady n = true) →
        ∃ n, n ∈ ([nodeA, nodeB] : List Node) ∧ nodeIsReady n = true ∧ n.name = nm)) :=
  ⟨by decide, choose_node_returns_member [nodeA, nodeB] [podOnA] (by decide)⟩

/-- Claim C9: on an empty node list `choose_node` fails with the
`NoNodesAvailable` error — in the code, `RuntimeError("No nodes
available")` — returning no node name; and the per-pod processing then
fails before any bind call, whatever the bind transport would have
returned (the `bindCall` component is arbitrary and unused). -/
theorem choose_node_empty_fails (pods : List Pod) (bc : CallApiResult) :
    choose_node [] pods = Except.error (PyExc.runtimeError "No nodes available") ∧
    tryPodPoll ⟨[], pods, bc⟩ = Except.error (PyExc.runtimeError "No nodes available") :=
  ⟨rfl, rfl⟩

/-- Claim C3: the admission filter accepts a pod exactly when its
assigned-node field is unset (`None`) or empty, its phase is exactly
`"Pending"`, and its requested scheduler name equals the configured one
exactly (string equality: case-sensitive, no trimming, no fallback). -/
theorem isEligible_iff (p : Pod) (s : String) :
    isEligible p s = true ↔
      ((p.nodeName = none ∨ p.nodeName = some "") ∧
        p.phase = "Pending" ∧ p.schedulerName = s) := by
  cases hp : p.nodeName with
  | none => simp [isEligible, optStrFalsy, hp]
  | some str => simp [isEligible, optStrFalsy, hp, and_assoc]

/-- Claim C4: the load count of a node equals the number of pods in the
snapshot (all namespaces, all phases — the filter looks only at the
assigned-node field) whose assigned-node field equals that node's name;
it is invariant under permutation of the pod list; and it is 0 exactly
when no pod is assigned to the node (`loadCount` is total, so every
candidate node gets a count). -/
theorem loadCount_correct (pods pods' : List Pod) (nm : String)
    (hperm : pods.Perm pods') :
    loadCount pods nm = (pods.filter fun p => decide (p.nodeName = some nm)).length ∧
    loadCount pods nm = loadCount pods' nm ∧
    ((∀ p ∈ pods, p.nodeName ≠ some nm) → loadCount pods nm = 0) := by
  have hfeq : (pods.filter fun p => p.nodeName == some nm) =
      (pods.filter fun p => decide (p.nodeName = some nm)) := by
    apply List.filter_congr
    intro p _
    by_cases h : p.nodeName = some nm
    · simp [h]
    · simp [h]
  refine ⟨?_, ?_, ?_⟩
  · rw [loadCount_eq_length, hfeq]
  · rw [loadCount_eq_length, loadCount_eq_length]
    exact (hperm.filter _).length_eq
  · intro hnone
    rw [loadCount_eq_length]
    have hnil : (pods.filter fun p => p.nodeName == some nm) = [] := by
      rw [List.filter_eq_nil_iff]
      intro p hp
      simp only [beq_iff_eq]
      exact hnone p hp
    rw [hnil]
    rfl

/-- Witness for C4 at a concrete input: swapping a two-pod snapshot leaves
the load count of node `a` unchanged. -/
theorem loadCount_correct_witness :
    ([podOnA, podOnB] : List Pod).Perm [podOnB, podOnA] ∧
    loadCount [podOnA, podOnB] "a" = loadCount [podOnB, podOnA] "a" :=
  ⟨List.Perm.swap podOnB podOnA [],
    (loadCount_correct [podOnA, podOnB] [podOnB, podOnA] "a"
      (List.Perm.swap podOnB podOnA [])).2.1⟩

/-- The per-pod batch loop distributes over list append. -/
theorem processBatchPoll_append (a b : List PollPodEnv) :
    processBatchPoll (a ++ b) = processBatchPoll a ++ processBatchPoll b := by
  induction a with
  | nil => rfl
  | cons x t ih => simp [processBatchPoll, ih]

/-- The per-pod batch loop yields one outcome per pod. -/
theorem processBatchPoll_length (a : List PollPodEnv) :
    (processBatchPoll a).length = a.length := by
  induction a with
  | nil => rfl
  | cons x t ih => simp [processBatchPoll, ih]

/-- The event stream loop distributes over list append. -/
theorem processStream_append (s : String) (a b : List (WatchEvent × WatchPodEnv)) :
    processStream s (a ++ b) = processStream s a ++ processStream s b := by
  induction a with
  | nil => rfl
  | cons x t ih =>
    obtain ⟨evt, env⟩ := x
    simp [processStream, ih]

/-- Claim C5: a failure while processing one pod is absorbed by the
per-pod `try/except` — the pod in the middle of a batch contributes
exactly its own outcome, the pods before and after it are processed
exactly as they would be alone, and every pod of the batch yields an
outcome; the same holds per event in the stream loop; and a cycle-level
failure is absorbed at the loop boundary as a logged cycle outcome. -/
theorem per_pod_error_isolation (pre post : List PollPodEnv) (env : PollPodEnv)
    (s : String) (epre epost : List (WatchEvent × WatchPodEnv))
    (ev : WatchEvent × WatchPodEnv) :
    processBatchPoll (pre ++ env :: post) =
      processBatchPoll pre ++ processPodPoll env :: processBatchPoll post ∧
    (processBatchPoll (pre ++ env :: post)).length = pre.length + 1 + post.length ∧
    processStream s (epre ++ ev :: epost) =
      processStream s epre ++
        ((eventAction ev.1 s).map fun _ => processPodWatch ev.2)
          :: processStream s epost ∧
    (∀ e, runCyclePoll (Except.error e) = CycleOutcome.cycleErrorLogged e) := by
  obtain ⟨evt, wenv⟩ := ev
  refine ⟨?_, ?_, ?_, fun e => rfl⟩
  · rw [processBatchPoll_append]
    rfl
  · rw [processBatchPoll_length]
    simp [List.length_append, List.length_cons]
    omega
  · rw [processStream_append]
    rfl

/-- Claim C6: when the bind call for a pod comes back as an HTTP 409
conflict, the per-pod handler logs the conflict — it does not produce a
failure outcome and no exception escapes — and the batch loop processes
that pod exactly once before moving on to the remaining pods unchanged. -/
theorem conflict_outcome_nonfatal (pre post : List PollPodEnv) (env : PollPodEnv)
    (reason : String)
    (hb : env.bindCall = CallApiResult.raised (PyExc.apiException 409 reason))
    (hn : env.nodes ≠ []) :
    processPodPoll env = PodLogOutcome.conflictLogged ∧
    processBatchPoll (pre ++ env :: post) =
      processBatchPoll pre ++ PodLogOutcome.conflictLogged :: processBatchPoll post := by
  have hchoose : ∃ nm, choose_node env.nodes env.podsSnapshot = Except.ok nm := by
    cases hcase : env.nodes with
    | nil => exact absurd hcase hn
    | cons n0 ns =>
      obtain ⟨c0, cs, n, hcand, hfind, hres⟩ := choose_node_cases n0 ns env.podsSnapshot
      exact ⟨n.name, hres⟩
  obtain ⟨nm, hc⟩ := hchoose
  have hpod : processPodPoll env = PodLogOutcome.conflictLogged := by
    unfold processPodPoll tryPodPoll
    rw [hc, hb]
    rfl
  refine ⟨hpod, ?_⟩
  rw [processBatchPoll_append]
  rw [show processBatchPoll (env :: post) =
    processPodPoll env :: processBatchPoll post from rfl]
  rw [hpod]

/-- Witness for C6 at a concrete input: a one-node cluster and a bind
call that hits a 409. -/
theorem conflict_outcome_nonfatal_witness :
    processPodPoll envConflict = PodLogOutcome.conflictLogged ∧
    processBatchPoll ([] ++ envConflict :: []) =
      processBatchPoll [] ++ PodLogOutcome.conflictLogged :: processBatchPoll [] :=
  conflict_outcome_nonfatal [] [] envConflict "Conflict" rfl (by decide)

/-- Claim C7: the streaming dispatcher processes a pod exactly when the
event carries a well-formed pod object, the event type is `ADDED` or
`MODIFIED`, and the pod passes the eligibility re-check; in particular a
`DELETED` event or a malformed event (object `none`) is ignored. -/
theorem eventAction_iff (evt : WatchEvent) (s : String) (p : Pod) :
    eventAction evt s = some p ↔
      (evt.object = some p ∧ (evt.type = "ADDED" ∨ evt.type = "MODIFIED") ∧
        isEligible p s = true) := by
  constructor
  · intro h
    unfold eventAction at h
    cases ho : evt.object with
    | none =>
      rw [ho] at h
      exact absurd h (by simp)
    | some q =>
      rw [ho] at h
      by_cases hty : (evt.type == "ADDED" || evt.type == "MODIFIED") = true
      · rw [hty] at h
        simp only [Bool.not_true, Bool.false_eq_true, if_false] at h
        by_cases hE : isEligible q s = true
        · rw [if_pos hE] at h
          injection h with hqp
          subst hqp
          simp only [Bool.or_eq_true, beq_iff_eq] at hty
          exact ⟨rfl, hty, hE⟩
        · rw [if_neg hE] at h
          exact absurd h (by simp)
      · have hf : (evt.type == "ADDED" || evt.type == "MODIFIED") = false :=
          Bool.eq_false_iff.mpr (fun hcontra => hty hcontra)
        rw [hf] at h
        simp only [Bool.not_false, if_true] at h
        exact absurd h (by simp)
  · rintro ⟨hobj, hty, hel⟩
    unfold eventAction
    rw [hobj]
    have htyb : (evt.type == "ADDED" || evt.type == "MODIFIED") = true := by
      rcases hty with h | h <;> simp [h]
    rw [htyb]
    simp [hel]

/-- Claim C2 counterexample: in `scheduler_watch.py`, `bind_pod` wrapped
in `except ValueError: pass` turns a raised `ValueError` into a success
while the identically-worded generic exception stays an error — success
is decided by the identity of the raised exception, not by any transport
status code, which falsifies the claim as stated. -/
theorem bind_success_by_exception_identity :
    bind_pod_watch (BindingCallResult.raised (PyExc.valueError "deserialization error")) =
      Except.ok () ∧
    bind_pod_watch (BindingCallResult.raised (PyExc.otherExc "deserialization error")) =
      Except.error (PyExc.otherExc "deserialization error") :=
  ⟨rfl, rfl⟩

/-- Claim C2 amended: in the polling variant a returned response is a
success exactly for status 200 or 201; an `ApiException` with status 409
is classified as a conflict, and every other `ApiException` status — 4xx
and 5xx alike — is logged as the same generic API-error outcome with no
permanent/transient distinction; and the watch variant's `bind_pod`
treats any raised `ValueError` as success. -/
theorem bind_classification (s0 : Nat) (r0 m0 : String) (h : s0 ≠ 409) :
    (∀ s : Nat, bind_pod_poll (CallApiResult.response s) = Except.ok () ↔
      (s = 200 ∨ s = 201)) ∧
    (∀ r, logOutcome (Except.error (PyExc.apiException 409 r)) =
      PodLogOutcome.conflictLogged) ∧
    logOutcome (Except.error (PyExc.apiException s0 r0)) =
      PodLogOutcome.apiErrorLogged s0 r0 ∧
    bind_pod_watch (BindingCallResult.raised (PyExc.valueError m0)) = Except.ok () := by
  refine ⟨?_, fun r => rfl, ?_, rfl⟩
  · intro s
    constructor
    · intro hok
      by_cases hs : s ∈ ([200, 201] : List Nat)
      · simpa using hs
      · exfalso
        have hbad : bind_pod_poll (CallApiResult.response s) =
            Except.error (PyExc.otherExc ("Binding failed with status " ++ toString s)) := by
          simp only [bind_pod_poll]
          rw [if_neg hs]
        rw [hbad] at hok
        exact absurd hok (by simp)
    · intro hdisj
      have hs : s ∈ ([200, 201] : List Nat) := by simpa using hdisj
      simp only [bind_pod_poll]
      rw [if_pos hs]
  · simp only [logOutcome]
    rw [if_neg h]

/-- Witness for the amended C2 at a concrete input: a 500 response is not
a conflict and is logged as the generic API error. -/
theorem bind_classification_witness :
    (500 : Nat) ≠ 409 ∧
    logOutcome (Except.error (PyExc.apiException 500 "server error")) =
      PodLogOutcome.apiErrorLogged 500 "server error" :=
  ⟨by decide, (bind_classification 500 "server error" "x" (by decide)).2.2.1⟩

/-- Claim C8 counterexample: when the watch stream terminates normally
(the `for` over the generator is exhausted without raising), the loop
reconnects immediately — delay 0, not the claimed fixed delay of 5. -/
theorem watch_reconnect_delay_cex :
    watchLoopIterate (Except.ok ()) = LoopAction.continueAfter 0 ∧
    LoopAction.continueAfter 0 ≠ LoopAction.continueAfter 5 :=
  ⟨rfl, by decide⟩

/-- Claim C8 amended: neither loop ever terminates on a steady-state
result; the streaming loop reconnects after a 5-second delay on a stream
error and immediately (no delay) on normal stream termination; the
polling loop retries after its normal interval whether the cycle
succeeded or raised. -/
theorem loop_liveness (r : Except PyExc Unit) (i : Nat) :
    watchLoopIterate r ≠ LoopAction.terminate ∧
    pollLoopIterate r i ≠ LoopAction.terminate ∧
    (∀ e, watchLoopIterate (Except.error e) = LoopAction.continueAfter 5) ∧
    watchLoopIterate (Except.ok ()) = LoopAction.continueAfter 0 ∧
    (∀ e, pollLoopIterate (Except.error e) i = LoopAction.continueAfter i) := by
  refine ⟨?_, ?_, fun e => rfl, rfl, fun e => rfl⟩
  · cases r <;> simp [watchLoopIterate]
  · cases r <;> simp [pollLoopIterate]

end Sched
